import Mathlib

/-!
# RedInk backend — verification of spec claims

Shallow embedding of the RedInk Node.js backend (outline parser, history
store, image-generation orchestrator, streaming provider clients) with
proofs about the spec's claims.

Sources embedded here:
* `src/backendjs/src/utils/textClient.ts` — `OutlineService._parseOutline`
* `src/unnamed/part_001` — `HistoryService` (create/get/update/delete/list/
  search/scanAndSyncTaskImages) and `ImageService` (`generateImages`,
  `retrySingleImage`, `retrySingleImageStreaming`, `retryFailedImages`)
* `src/backendjs/src/generators/openaiCompatible.ts` and
  `src/backendjs/src/generators/imageApi.ts` — streaming chunk loops
-/

/-! ## Generic JS-style string helpers (on `List Char`)

These model the JavaScript string primitives the source uses
(`String.prototype.split`, `trim`, `startsWith`, `endsWith`, `includes`,
`toLowerCase`, `parseInt`).  All are structural so they evaluate by
kernel reduction. -/

/-- Case-insensitive match of `d` at the head of `l` (ASCII lowering via
`Char.toLower`, matching the `i` flag of the `/<page>/i` regex on its
ASCII-only pattern). -/
def ciMatchHead : List Char → List Char → Bool
  | [], _ => true
  | _ :: _, [] => false
  | d :: ds, c :: cs => (c.toLower == d.toLower) && ciMatchHead ds cs

/-- Auxiliary splitter: split `l` at every (leftmost, non-overlapping)
case-insensitive occurrence of the non-empty delimiter `d`, accumulating
the current segment in `acc` (reversed).  The `fuel` argument makes the
recursion structural (each step consumes at least one character, so fuel
`l.length` is always enough); the out-of-fuel branch is unreachable. -/
def splitCIAux (d : List Char) : Nat → List Char → List Char → List (List Char)
  | _, [], acc => [acc.reverse]
  | 0, l, acc => [acc.reverse ++ l]
  | fuel + 1, c :: cs, acc =>
    if ciMatchHead d (c :: cs) then
      acc.reverse :: splitCIAux d fuel (cs.drop (d.length - 1)) []
    else
      splitCIAux d fuel cs (c :: acc)

/-- JS `s.split(/d/i)` for a literal ASCII delimiter `d` (also used with
the case-less delimiters `"---"`, `"."` and `"\n"`, where case-insensitive
and exact splitting coincide). -/
def jsSplit (d : String) (s : String) : List String :=
  (splitCIAux d.data s.data.length s.data []).map List.asString

/-- Substring search on char lists (helper for `jsIncludes`). -/
def hasSubList : List Char → List Char → Bool
  | [], sub => sub.isEmpty
  | c :: t, sub => sub.isPrefixOf (c :: t) || hasSubList t sub

/-- JS `s.includes(sub)` (case-sensitive, exact substring). -/
def jsIncludes (s sub : String) : Bool :=
  hasSubList s.data sub.data

/-- JS `s.trim()` (whitespace per `Char.isWhitespace`; JS also strips some
exotic Unicode spaces, which do not occur in this repository's data). -/
def jsTrim (s : String) : String :=
  (((s.data.dropWhile Char.isWhitespace).reverse.dropWhile Char.isWhitespace).reverse).asString

/-- JS `s.startsWith(p)`. -/
def jsStartsWith (s p : String) : Bool := p.data.isPrefixOf s.data

/-- JS `s.endsWith(p)`. -/
def jsEndsWith (s p : String) : Bool := p.data.isSuffixOf s.data

/-- JS `s.toLowerCase()` (ASCII lowering; the titles searched here are
either ASCII or caseless CJK). -/
def jsToLower (s : String) : String := (s.data.map Char.toLower).asString

/-- JS `parseInt(s)` restricted to decimal forms: skip leading whitespace,
optional sign, then a digit prefix; no digits means `NaN` (`none`).
(The hexadecimal `0x` autodetection of `parseInt` is not modelled; the
filenames scanned here are decimal-indexed.) -/
def parseIntJS (s : String) : Option Int :=
  let l := s.data.dropWhile Char.isWhitespace
  let sign : Int := if l.head? = some '-' then -1 else 1
  let l' := if l.head? = some '-' || l.head? = some '+' then l.tail else l
  let ds := l'.takeWhile Char.isDigit
  if ds.isEmpty then none
  else some (sign * (ds.foldl (fun a c => a * 10 + (c.toNat - 48)) (0 : Nat) : Nat))

/-- JS `undefined`-producing coercion `x || null` on an optional string:
an absent or empty string becomes `none`. -/
def jsStrOpt : Option String → Option String
  | some t => if t = "" then none else some t
  | none => none

/-! ## Outline parser (`OutlineService._parseOutline`, textClient.ts:393-430) -/

/-- Page type enum (`'cover' | 'content' | 'summary'`). -/
inductive PageType
  | cover
  | content
  | summary
deriving DecidableEq

/-- `PageData` (`{index, type, content}`). -/
structure PageData where
  index : Nat
  type : PageType
  content : String
deriving DecidableEq

/-- The match of the regex `^\[(\S+)\]` on `t`: `t` must start with `[`,
the capture is a non-empty run of non-whitespace characters, followed by
`]`.  Since `]` is itself non-whitespace and `\S+` is greedy with
backtracking, the capture extends to the last `]` inside the maximal
non-whitespace run after `[`, position `≥ 1` in that run. -/
def lastCloseBracket (run : List Char) : Option Nat :=
  ((List.range run.length).filter
    (fun j => decide (1 ≤ j) && (run.getD j ' ' == ']'))).getLast?

/-- Capture group of `^\[(\S+)\]` applied to `t` (`none` when the regex
does not match). -/
def extractLabel : List Char → Option (List Char)
  | '[' :: rest =>
    let run := rest.takeWhile (fun c => !c.isWhitespace)
    (lastCloseBracket run).map (fun j => run.take j)
  | _ => none

/-- The fixed `typeMapping` table: `封面→cover, 内容→content, 总结→summary`,
with `|| 'content'` as fallback for unrecognized labels. -/
def typeMapping (lbl : String) : PageType :=
  if lbl = "封面" then .cover
  else if lbl = "内容" then .content
  else if lbl = "总结" then .summary
  else .content

/-- Page type of a (trimmed) page text: mapped label when the bracket
regex matches, `content` otherwise. -/
def classifyType (t : String) : PageType :=
  match extractLabel t.data with
  | some lbl => typeMapping lbl.asString
  | none => .content

/-- The raw split of the outline text: on `/<page>/i` when the text
contains `<page>` (case-sensitive guard, as in the source), otherwise on
the legacy `---` separator. -/
def pageSegments (outlineText : String) : List String :=
  if jsIncludes outlineText "<page>" then jsSplit "<page>" outlineText
  else jsSplit "---" outlineText

/-- Number of page-delimiter occurrences in the outline text (splitting
on `n` non-overlapping occurrences yields `n + 1` segments). -/
def delimCount (outlineText : String) : Nat :=
  (pageSegments outlineText).length - 1

/-- `OutlineService._parseOutline`: split, then for each raw segment (with
its raw position `index`) trim it, skip it when blank, otherwise emit
`{index, type, content}` where `content` is the trimmed text. -/
def parseOutline (outlineText : String) : List PageData :=
  (pageSegments outlineText).enum.filterMap fun p =>
    let t := jsTrim p.2
    if t = "" then none
    else some ⟨p.1, classifyType t, t⟩

/-- The spec's outline scenario text `"[封面]\nA\n<page>[内容]\nB\n<page>[总结]\nC"`. -/
def pageScenario : String := "[封面]\nA\n<page>[内容]\nB\n<page>[总结]\nC"

/-! ## History store (`HistoryService`, part_001:1-528)

Filesystem state is modelled explicitly: the aggregate index file's record
list, the per-record detail files (`{recordId}.json`), and the per-task
image directories.  Timestamps are a `Nat` clock passed in for
`new Date().toISOString()`.  A detail file that exists but fails
`JSON.parse` is `DetailFile.corrupt`. -/

/-- The embedded `outline` object of a record (`{outline, pages, ...}`). -/
structure OutlineData where
  text : String
  pages : List PageData
deriving DecidableEq

/-- `HistoryRecord.images` (`{task_id: string | null, generated: string[]}`). -/
structure ImagesData where
  task_id : Option String
  generated : List String
deriving DecidableEq

/-- `HistoryRecord` detail-file contents. -/
structure HistoryRecord where
  id : String
  title : String
  created_at : Nat
  updated_at : Nat
  outline : OutlineData
  images : ImagesData
  status : String
  thumbnail : Option String
deriving DecidableEq

/-- `HistoryIndexRecord`: one denormalized entry of the aggregate index. -/
structure HistoryIndexRecord where
  id : String
  title : String
  created_at : Nat
  updated_at : Nat
  status : String
  thumbnail : Option String
  page_count : Nat
  task_id : Option String
deriving DecidableEq

/-- A detail file on disk: parseable record or unparseable content. -/
inductive DetailFile
  | ok (r : HistoryRecord)
  | corrupt
deriving DecidableEq

/-- The durable state of the history directory. -/
structure HistoryState where
  index : List HistoryIndexRecord
  details : String → Option DetailFile
  taskDirs : String → Option (List String)

/-- The `updates` argument of `updateRecord` (each field optional,
`undefined` = `none`). -/
structure UpdatesData where
  outline : Option OutlineData
  images : Option ImagesData
  status : Option String
  thumbnail : Option String

/-- `HistoryService.getRecord` (part_001:163-177): `null` when the detail
file is missing or unparseable. -/
def getRecord (s : HistoryState) (recordId : String) : Option HistoryRecord :=
  match s.details recordId with
  | some (.ok r) => some r
  | some .corrupt => none
  | none => none

/-- `HistoryService.createRecord` (part_001:116-158).  The freshly drawn
`uuidv4()` is passed in as `recordId`; the new state is returned (writes
the detail file, prepends the denormalized entry to the index). -/
def createRecord (now : Nat) (s : HistoryState) (recordId topic : String)
    (outline : OutlineData) (taskId : Option String) : HistoryState :=
  let tid := jsStrOpt taskId
  let record : HistoryRecord :=
    ⟨recordId, topic, now, now, outline, ⟨tid, []⟩, "draft", none⟩
  ⟨⟨recordId, topic, now, now, "draft", none, outline.pages.length, tid⟩ :: s.index,
   fun k => if k = recordId then some (.ok record) else s.details k,
   s.taskDirs⟩

/-- Patch the first list element satisfying `p` with `f` (JS
`Array.prototype.find` followed by in-place mutation). -/
def patchFirst {α : Type} (p : α → Bool) (f : α → α) : List α → List α
  | [] => []
  | x :: xs => if p x then f x :: xs else x :: patchFirst p f xs

/-- The detail-record mutation of `updateRecord` (part_001:196-213): every
`!== undefined` field of `updates` overwrites the record, and `updated_at`
takes the current time. -/
def applyUpdates (now : Nat) (u : UpdatesData) (record : HistoryRecord) :
    HistoryRecord :=
  { record with
    updated_at := now
    outline := u.outline.getD record.outline
    images := u.images.getD record.images
    status := u.status.getD record.status
    thumbnail := match u.thumbnail with
      | some t => some t
      | none => record.thumbnail }

/-- The index-entry patch of `updateRecord` (part_001:222-236): fields are
patched only for *truthy* updates (`if (updates.status)`, `if
(updates.thumbnail)`, `if (updates.outline)`, `if
(updates.images?.task_id)`), so an empty string or a `null` `task_id`
updates the detail but not the index entry. -/
def patchIndexEntry (now : Nat) (u : UpdatesData) (e : HistoryIndexRecord) :
    HistoryIndexRecord :=
  { e with
    updated_at := now
    status := match u.status with
      | some t => if t = "" then e.status else t
      | none => e.status
    thumbnail := match u.thumbnail with
      | some t => if t = "" then e.thumbnail else some t
      | none => e.thumbnail
    page_count := match u.outline with
      | some o => o.pages.length
      | none => e.page_count
    task_id := match u.images with
      | some im => match im.task_id with
        | some t => if t = "" then e.task_id else some t
        | none => e.task_id
      | none => e.task_id }

/-- `HistoryService.updateRecord` (part_001:182-241): bail out when the
detail record cannot be read; otherwise rewrite the detail file with the
updated record and patch the first matching index entry. -/
def updateRecord (now : Nat) (s : HistoryState) (recordId : String)
    (u : UpdatesData) : Bool × HistoryState :=
  match getRecord s recordId with
  | none => (false, s)
  | some record =>
    (true,
     ⟨patchFirst (fun e => decide (e.id = recordId)) (patchIndexEntry now u)
        s.index,
      fun k => if k = recordId then some (.ok (applyUpdates now u record))
        else s.details k,
      s.taskDirs⟩)

/-- `HistoryService.deleteRecord` (part_001:246-281): removes the task's
image directory when the record has a truthy `task_id`, unlinks the detail
file (which exists, since `getRecord` succeeded), and filters the record
out of the index. -/
def deleteRecord (s : HistoryState) (recordId : String) : Bool × HistoryState :=
  match getRecord s recordId with
  | none => (false, s)
  | some record =>
    let dirs' := match record.images.task_id with
      | some t => if t = "" then s.taskDirs
          else fun k => if k = t then none else s.taskDirs k
      | none => s.taskDirs
    (true,
     ⟨s.index.filter (fun e => decide (e.id ≠ recordId)),
      fun k => if k = recordId then none else s.details k,
      dirs'⟩)

/-- JS `Array.prototype.slice(start, stop)` index normalization. -/
def jsSliceIdx (len : Nat) (i : Int) : Nat :=
  if i < 0 then ((len : Int) + i).toNat else min i.toNat len

/-- JS `Array.prototype.slice(start, stop)`. -/
def jsSlice {α : Type} (l : List α) (start stop : Int) : List α :=
  (l.take (jsSliceIdx l.length stop)).drop (jsSliceIdx l.length start)

/-- `listRecords` result (`HistoryListResult`). -/
structure HistoryListResult where
  records : List HistoryIndexRecord
  total : Nat
  page : Int
  page_size : Int
  total_pages : Int

/-- `HistoryService.listRecords` (part_001:286-310): optional truthy status
filter, then `slice((page-1)*pageSize, (page-1)*pageSize + pageSize)`.
`total_pages` is `Math.ceil(total / pageSize)`, modelled for positive
`pageSize` (the only shape the route passes). -/
def listRecords (s : HistoryState) (page pageSize : Int)
    (status : Option String) : HistoryListResult :=
  let records := match status with
    | some st => if st = "" then s.index
        else s.index.filter (fun r => decide (r.status = st))
    | none => s.index
  let total := records.length
  let start := (page - 1) * pageSize
  ⟨jsSlice records start (start + pageSize), total, page, pageSize,
   if pageSize ≤ 0 then 0 else ((total : Int) + pageSize - 1) / pageSize⟩

/-- `HistoryService.searchRecords` (part_001:315-322): case-lowered
substring match on titles. -/
def searchRecords (s : HistoryState) (keyword : String) :
    List HistoryIndexRecord :=
  s.index.filter (fun r => jsIncludes (jsToLower r.title) (jsToLower keyword))

/-- Filter of `scanAndSyncTaskImages`' directory listing: skip `thumb_*`,
keep `*.png`, `*.jpg`, `*.jpeg`. -/
def keepImageFile (filename : String) : Bool :=
  !jsStartsWith filename "thumb_" &&
    (jsEndsWith filename ".png" || jsEndsWith filename ".jpg" ||
      jsEndsWith filename ".jpeg")

/-- `getIndex` sort key of `scanAndSyncTaskImages`: `parseInt` of the text
before the first `.`; non-numeric names get key 999 (the source's `catch`
value; `parseInt` itself returns `NaN`, which the JS comparator treats as
equal-to-everything — the resulting order differs only for non-numeric
names and no claim depends on it). -/
def fileSortKey (name : String) : Int :=
  match parseIntJS ((jsSplit "." name).headD "") with
  | some n => n
  | none => 999

/-- The sorted image list of `scanAndSyncTaskImages` (JS `Array.sort` with
comparator `getIndex(a) - getIndex(b)`). -/
def sortImageFiles (files : List String) : List String :=
  files.insertionSort (fun a b => fileSortKey a ≤ fileSortKey b)

/-- The task-to-record association of `scanAndSyncTaskImages`: the first
index entry whose detail record exists and stores `task_id === taskId`. -/
def findTaskRecord (s : HistoryState) (taskId : String) : Option String :=
  (s.index.find? (fun rec => match getRecord s rec.id with
    | some rd => decide (rd.images.task_id = some taskId)
    | none => false)).map HistoryIndexRecord.id

/-- The status computed by `scanAndSyncTaskImages` (part_001:405-412):
`draft` when no images, `completed` when `actualCount >= expectedCount`,
`partial` otherwise. -/
def scanStatus (actualCount expectedCount : Nat) : String :=
  if actualCount = 0 then "draft"
  else if expectedCount ≤ actualCount then "completed"
  else "partial"

/-- The JSON result object of `scanAndSyncTaskImages`. -/
structure ScanResult where
  success : Bool
  record_id : Option String
  images_count : Nat
  images : List String
  status : Option String
  no_record : Bool
  error : Option String
deriving DecidableEq

/-- `HistoryService.scanAndSyncTaskImages` (part_001:348-450): scan the
task directory (excluding thumbnails), sort, find the associated record,
recompute status from actual-vs-expected count, and push the repair
through `updateRecord`. -/
def scanAndSyncTaskImages (now : Nat) (s : HistoryState) (taskId : String) :
    ScanResult × HistoryState :=
  match s.taskDirs taskId with
  | none => (⟨false, none, 0, [], none, false, some "task dir missing"⟩, s)
  | some files =>
    let imageFiles := sortImageFiles (files.filter keepImageFile)
    match findTaskRecord s taskId with
    | some recordId =>
      match getRecord s recordId with
      | some record =>
        let expectedCount := record.outline.pages.length
        let actualCount := imageFiles.length
        let st := scanStatus actualCount expectedCount
        let upd : UpdatesData :=
          ⟨none, some ⟨some taskId, imageFiles⟩, some st,
           match imageFiles with
           | [] => none
           | f :: _ => some f⟩
        (⟨true, some recordId, actualCount, imageFiles, some st, false, none⟩,
         (updateRecord now s recordId upd).2)
      | none =>
        (⟨true, none, imageFiles.length, imageFiles, none, true, none⟩, s)
    | none =>
      (⟨true, none, imageFiles.length, imageFiles, none, true, none⟩, s)

/-! ## Index/detail consistency (the §3 denormalization invariant) -/

/-- One index entry agrees with its detail record on every denormalized
field (vacuous when the detail file is missing/unparseable). -/
def entryOkB (s : HistoryState) (e : HistoryIndexRecord) : Bool :=
  match getRecord s e.id with
  | some r =>
    decide (e.status = r.status) && decide (e.thumbnail = r.thumbnail) &&
      decide (e.updated_at = r.updated_at) &&
      decide (e.page_count = r.outline.pages.length) &&
      decide (e.task_id = r.images.task_id)
  | none => true

/-- Every index entry agrees with its detail record. -/
def indexConsistent (s : HistoryState) : Prop :=
  s.index.all (entryOkB s) = true

/-- Store sanity: index ids are unique (one entry per record) and the
index is consistent with the detail files. -/
def historyWellFormed (s : HistoryState) : Prop :=
  (s.index.map HistoryIndexRecord.id).Nodup ∧ indexConsistent s

/-- Truthiness side-condition under which `updateRecord` keeps index and
detail in sync: a provided `status`/`thumbnail` is a non-empty string and
a provided `images` carries a non-null, non-empty `task_id`. -/
def updatesTruthy (u : UpdatesData) : Prop :=
  (∀ t, u.status = some t → t ≠ "") ∧
  (∀ t, u.thumbnail = some t → t ≠ "") ∧
  (∀ im, u.images = some im → ∃ t, im.task_id = some t ∧ t ≠ "")

/-! ## Concrete sample states (counterexamples / witnesses) -/

/-- A one-page record associated with task `t1`. -/
def sampleRecord : HistoryRecord :=
  ⟨"r1", "topic", 0, 0, ⟨"o", [⟨0, .cover, "c"⟩]⟩, ⟨some "t1", ["0.png"]⟩,
   "generating", some "0.png"⟩

/-- The index entry denormalizing `sampleRecord`. -/
def sampleEntry : HistoryIndexRecord :=
  ⟨"r1", "topic", 0, 0, "generating", some "0.png", 1, some "t1"⟩

/-- A consistent store holding `sampleRecord` and a task directory for
`t1` that contains two originals (`0.png`, `1.png`) and a thumbnail —
one image more than the record's single outline page. -/
def sampleState : HistoryState :=
  ⟨[sampleEntry],
   fun k => if k = "r1" then some (.ok sampleRecord) else none,
   fun k => if k = "t1" then some ["0.png", "1.png", "thumb_0.png"] else none⟩

/-! ## Image orchestrator (`ImageService.generateImages`, part_001:776-1177)

The per-page provider call `_generateSingleImage` (part_001:674-771) is an
I/O action whose outcome after its internal bounded retry loop is either
success (a saved `{index}.png`) or failure; it is modelled by an outcome
oracle `res : Nat → Bool` keyed by page index (the function's returned
tuple carries `page.index` back unchanged).  The SSE event stream is
modelled as the list of events yielded, with the claim-relevant payload
fields (`index`, `phase`, and the `finish` summary); the purely cosmetic
`status/message/current` strings are omitted. -/

/-- The `phase` field of generation events. -/
inductive EvPhase
  | cover
  | content
deriving DecidableEq

/-- One yielded SSE event of `generateImages`. -/
inductive GenEvent
  | progress (index : Option Nat) (phase : EvPhase)
  | complete (index : Nat) (phase : EvPhase)
  | error (index : Nat) (phase : EvPhase)
  | finish (success : Bool) (images : List String) (total completed failed : Nat)
      (failed_indices : List Nat)
deriving DecidableEq

/-- `${index}.png`. -/
def imageFilename (i : Nat) : String := toString i ++ ".png"

/-- Phase-1 partition (part_001:843-859): the loop keeps the *last*
explicitly cover-typed page as cover and collects non-cover pages in
order; with no explicit cover, the first page is promoted
(`otherPages.splice(0, 1)` removes it from the others). -/
def coverSplit (pages : List PageData) :
    Option PageData × List PageData :=
  match (pages.filter (fun p => decide (p.type = .cover))).getLast? with
  | some c => (some c, pages.filter (fun p => decide (p.type ≠ .cover)))
  | none =>
    match pages with
    | [] => (none, [])
    | p :: rest => (some p, rest)

/-- The pages `generateImages` actually attempts, in attempt order (cover
first).  Pages dropped by the last-cover-wins partition (only possible
with several explicitly cover-typed pages) are never attempted. -/
def attemptedPages (pages : List PageData) : List PageData :=
  match coverSplit pages with
  | (some c, others) => c :: others
  | (none, others) => others

/-- `generatedImages` at the end of the run: filenames of successful
pages in attempt/push order. -/
def genSuccessList (pages : List PageData) (res : Nat → Bool) : List String :=
  ((attemptedPages pages).filter (fun p => res p.index)).map
    (fun p => imageFilename p.index)

/-- `failedPages` at the end of the run, in push order. -/
def genFailedList (pages : List PageData) (res : Nat → Bool) : List PageData :=
  (attemptedPages pages).filter (fun p => !res p.index)

/-- The per-page result event (`complete` with image url on success,
`error` on failure). -/
def pageResultEv (res : Nat → Bool) (ph : EvPhase) (p : PageData) : GenEvent :=
  if res p.index then .complete p.index ph else .error p.index ph

/-- Cover-phase events (part_001:861-942): a progress for the cover, then
its result event. -/
def coverEvs (res : Nat → Bool) (c : PageData) : List GenEvent :=
  [.progress (some c.index) .cover, pageResultEv res .cover c]

/-- Content-phase events in high-concurrency mode (part_001:948-1056):
`batch_start`, a progress per page, then the settled results in
submission order. -/
def hcContentEvs (res : Nat → Bool) (others : List PageData) : List GenEvent :=
  others.map (fun p => .progress (some p.index) .content) ++
    others.map (pageResultEv res .content)

/-- Content-phase events in sequential mode (part_001:1057-1136):
progress/result pairs per page. -/
def seqContentEvs (res : Nat → Bool) (others : List PageData) : List GenEvent :=
  others.flatMap (fun p =>
    [.progress (some p.index) .content, pageResultEv res .content p])

/-- Content-phase events (empty when there are no other pages; the
`batch_start` progress carries no page index). -/
def contentEvs (highConcurrency : Bool) (res : Nat → Bool)
    (others : List PageData) : List GenEvent :=
  match others with
  | [] => []
  | _ :: _ =>
    .progress none .content ::
      (if highConcurrency then hcContentEvs res others
       else seqContentEvs res others)

/-- The terminal `finish` event (part_001:1165-1176). -/
def finishEv (pages : List PageData) (res : Nat → Bool) : GenEvent :=
  .finish ((genFailedList pages res).length = 0) (genSuccessList pages res)
    pages.length (genSuccessList pages res).length
    (genFailedList pages res).length
    ((genFailedList pages res).map PageData.index)

/-- The full event sequence yielded by `generateImages`. -/
def generateImagesEvents (pages : List PageData) (res : Nat → Bool)
    (highConcurrency : Bool) : List GenEvent :=
  (match (coverSplit pages).1 with
   | some c => coverEvs res c
   | none => []) ++
  contentEvs highConcurrency res (coverSplit pages).2 ++
  [finishEv pages res]

/-- The final status written to the history record (part_001:1140-1163):
`completed` when no page failed, else `partial` when something succeeded,
else `draft`. -/
def genFinalStatus (pages : List PageData) (res : Nat → Bool) : String :=
  if (genFailedList pages res).length = 0 then "completed"
  else if 0 < (genSuccessList pages res).length then "partial"
  else "draft"

/-- The `phase` payload field of an event (`finish` carries none). -/
def evPhase : GenEvent → Option EvPhase
  | .progress _ ph => some ph
  | .complete _ ph => some ph
  | .error _ ph => some ph
  | .finish _ _ _ _ _ _ => none

/-- The event is the `complete`/`error` outcome of page index `i`. -/
def isResultOf (i : Nat) : GenEvent → Prop
  | .complete j _ => j = i
  | .error j _ => j = i
  | _ => False

/-- The event is a `progress` carrying page index `i`. -/
def isProgressOf (i : Nat) : GenEvent → Prop
  | .progress (some j) _ => j = i
  | _ => False

/-- Per-page causal order: every `complete`/`error` event of a page is
preceded (strictly) by a `progress` event carrying that page's index. -/
def causalOk (evs : List GenEvent) : Prop :=
  ∀ (j : Nat) (e : GenEvent) (i : Nat), evs.get? j = some e →
    isResultOf i e →
    ∃ (k : Nat) (e' : GenEvent), k < j ∧ evs.get? k = some e' ∧
      isProgressOf i e'

/-- The spec's 5-page scenario: pages 0..4 (page 0 cover), generation
succeeding exactly on pages {0, 1, 2}. -/
def scenarioPages : List PageData :=
  [⟨0, .cover, "p0"⟩, ⟨1, .content, "p1"⟩, ⟨2, .content, "p2"⟩,
   ⟨3, .content, "p3"⟩, ⟨4, .summary, "p4"⟩]

/-- Outcome oracle of the 5-page scenario. -/
def scenarioRes : Nat → Bool := fun i => decide (i < 3)

/-! ## Retry pipelines — reference image resolution (part_001:1182-1508)

Image bytes (Node `Buffer`) are byte lists; the external `compressImage`
(sharp, with a KB budget) is an uninterpreted function parameter; the
optional `coverFile` argument stands for the `fs.existsSync`/`readFileSync`
pair on `{taskDir}/0.png`. -/

/-- In-memory `TaskState` (part_001:569-577). -/
structure TaskStateCtx where
  pages : List PageData
  generated : Nat → Option String
  failed : Nat → Option String
  cover_image : Option (List Nat)
  full_outline : String
  user_images : Option (List (List Nat))
  user_topic : String

/-- Reference-image resolution of `retrySingleImage` (part_001:1194-1219)
and `retrySingleImageStreaming` (part_001:1267-1292) — identical in both:
with `useReference`, take the cached cover bytes from `TaskState`; when
absent and `useReference`, load `0.png` and compress it to the 200 KB
budget; otherwise no reference. -/
def resolveRetryReference (compress : List Nat → Nat → List Nat)
    (taskState : Option TaskStateCtx) (useReference : Bool)
    (coverFile : Option (List Nat)) : Option (List Nat) :=
  let ref : Option (List Nat) := match taskState with
    | some ts => if useReference then ts.cover_image else none
    | none => none
  match ref with
  | some r => some r
  | none =>
    if useReference then
      match coverFile with
      | some data => some (compress data 200)
      | none => none
    else none

/-- Reference-image resolution of `retryFailedImages` (part_001:1418-1432):
the same fallback chain, always enabled. -/
def resolveRetryAllReference (compress : List Nat → Nat → List Nat)
    (taskState : Option TaskStateCtx) (coverFile : Option (List Nat)) :
    Option (List Nat) :=
  match taskState with
  | some ts => match ts.cover_image with
    | some b => some b
    | none => match coverFile with
      | some data => some (compress data 200)
      | none => none
  | none => match coverFile with
    | some data => some (compress data 200)
    | none => none

/-- The reference image as the spec's scenario words it: "the cached cover
bytes if present in TaskState, else loads `0.png` from the task directory
if it exists, else proceeds without a reference" (the loaded file is
compressed to the byte budget). -/
def retryReferenceSpec (compress : List Nat → Nat → List Nat)
    (cachedCover : Option (List Nat)) (coverFile : Option (List Nat)) :
    Option (List Nat) :=
  match cachedCover with
  | some b => some b
  | none => match coverFile with
    | some data => some (compress data 200)
    | none => none

/-! ## Streaming chat-completion chunk loop

The `data` event handler shared verbatim by
`OpenAICompatibleGenerator.generateViaChatApi` (openaiCompatible.ts:188-270)
and `ImageApiGenerator.generateViaChatApi` (imageApi.ts:261-343): count the
chunk, reject past `MAX_CHUNKS`, otherwise append the chunk to the line
buffer, split on newlines keeping the final partial line buffered, and
scan the complete lines for a `finish_reason="stop"` terminal marker.
JSON parsing of a line is external, so a per-line classifier is a
parameter. -/

/-- Classification of one buffered line: `skip` (blank line,
`data: [DONE]`, unparseable JSON, or no `finish_reason="stop"` yet),
`stopContent c` (terminal marker with a `content` payload — the promise
resolves by extracting and downloading the image from `c`), or
`stopNoContent` (terminal marker without `content` — the promise
rejects). -/
inductive LineClass
  | skip
  | stopContent (content : String)
  | stopNoContent

/-- A terminal marker found while scanning a chunk's lines. -/
inductive StopSignal
  | withContent (content : String)
  | withoutContent

/-- Outcome of the streaming loop over a finite chunk prefix. -/
inductive StreamOutcome
  | resolved (content : String)
  | rejectedNoContent
  | timeoutChunks (message : String)
  | awaiting (buffer : String) (count : Nat)
deriving DecidableEq

/-- `MAX_CHUNKS = 200` (openaiCompatible.ts:190, imageApi.ts:263). -/
def MAX_CHUNKS : Nat := 200

/-- The timeout rejection message (first line of the `Error` text). -/
def chunkTimeoutMessage : String := "流式响应超时：接收次数超过200次限制"

/-- First terminal marker among the complete lines of one data event. -/
def firstStop (classify : String → LineClass) :
    List String → Option StopSignal
  | [] => none
  | line :: rest =>
    match classify line with
    | .skip => firstStop classify rest
    | .stopContent c => some (.withContent c)
    | .stopNoContent => some .withoutContent

/-- The chunk loop: `chunks` are the data events delivered so far (in
order), `buffer`/`count` the handler state (`awaiting` when the stream has
delivered every chunk without reaching a decision). -/
def runChunks (classify : String → LineClass) :
    List String → String → Nat → StreamOutcome
  | [], buffer, count => .awaiting buffer count
  | chunk :: rest, buffer, count =>
    let count' := count + 1
    if MAX_CHUNKS < count' then .timeoutChunks chunkTimeoutMessage
    else
      let pieces := jsSplit "\n" (buffer ++ chunk)
      match firstStop classify pieces.dropLast with
      | some (.withContent c) => .resolved c
      | some .withoutContent => .rejectedNoContent
      | none => runChunks classify rest (pieces.getLast?.getD "") count'

/-! ## Theorems -/

/-! ### Parser lemmas -/

theorem splitCIAux_ne_nil (d : List Char) (fuel : Nat) (l acc : List Char) :
    splitCIAux d fuel l acc ≠ [] := by
  induction fuel generalizing l acc with
  | zero => cases l <;> simp [splitCIAux]
  | succ n ih =>
    cases l with
    | nil => simp [splitCIAux]
    | cons c cs =>
      simp only [splitCIAux]
      split
      · simp
      · exact ih cs (c :: acc)

theorem pageSegments_ne_nil (s : String) : pageSegments s ≠ [] := by
  unfold pageSegments jsSplit
  split <;> simp [splitCIAux_ne_nil]

theorem filterMap_eq_map_of_some {α β : Type} (f : α → Option β) (g : α → β)
    (l : List α) (h : ∀ x ∈ l, f x = some (g x)) : l.filterMap f = l.map g := by
  induction l with
  | nil => rfl
  | cons a t ih =>
    rw [List.filterMap_cons, h a (by simp), List.map_cons,
      ih (fun x hx => h x (List.mem_cons_of_mem a hx))]

theorem snd_mem_of_mem_enum {α : Type} {l : List α} {x : Nat × α}
    (h : x ∈ l.enum) : x.2 ∈ l := by
  rcases x with ⟨i, a⟩
  rw [List.enum_eq_zip_range] at h
  exact (List.of_mem_zip h).2

/-- When every raw segment trims non-blank, the parser maps each segment
to one page carrying its raw position as index. -/
theorem parseOutline_eq_map (s : String)
    (h : ∀ seg ∈ pageSegments s, jsTrim seg ≠ "") :
    parseOutline s = (pageSegments s).enum.map
      (fun p => ⟨p.1, classifyType (jsTrim p.2), jsTrim p.2⟩) := by
  unfold parseOutline
  exact filterMap_eq_map_of_some _ _ _
    (fun x hx => by simp only [if_neg (h x.2 (snd_mem_of_mem_enum hx))])

/-- C2 (counterexample): the claim "a text with N page-delimiters parses
to exactly N pages, the k-th of which has index k" fails on the code.
The spec's own scenario text contains 2 `<page>` delimiters but parses to
3 pages; and the text `"<page>A"` contains 1 delimiter and parses to 1
page whose index is 1, not 0. -/
theorem parseOutline_claim2_counterexample :
    delimCount pageScenario = 2 ∧ (parseOutline pageScenario).length = 3 ∧
    delimCount "<page>A" = 1 ∧
    (parseOutline "<page>A").map PageData.index = [1] := by
  decide

/-- C2 (amended): splitting a text on its N page-delimiter occurrences
yields N+1 raw segments; when every segment is non-blank after trimming,
the parser produces exactly N+1 pages whose indices are the sequential
positions 0, 1, …, N of their segments (blank segments are skipped
without re-indexing, so indices can have gaps otherwise). -/
theorem parseOutline_segment_indices (s : String)
    (h : ∀ seg ∈ pageSegments s, jsTrim seg ≠ "") :
    (parseOutline s).length = delimCount s + 1 ∧
    (parseOutline s).map PageData.index = List.range (delimCount s + 1) := by
  have hlen : delimCount s + 1 = (pageSegments s).length := by
    unfold delimCount
    have := pageSegments_ne_nil s
    have : 1 ≤ (pageSegments s).length := by
      cases hps : pageSegments s with
      | nil => exact absurd hps this
      | cons a t => simp
    omega
  rw [parseOutline_eq_map s h, hlen]
  constructor
  · simp [List.enum_length]
  · rw [List.map_map]
    exact List.enum_map_fst _

/-- C2 (witness): the amended statement at the spec's scenario text. -/
theorem parseOutline_segment_indices_witness :
    (parseOutline pageScenario).length = delimCount pageScenario + 1 ∧
    (parseOutline pageScenario).map PageData.index =
      List.range (delimCount pageScenario + 1) :=
  parseOutline_segment_indices pageScenario (by decide)

/-- C9: label classification follows the fixed mapping `封面→cover`,
`内容→content`, `总结→summary`; pages without a leading bracketed label, or
with an unrecognized label, get type `content`; every parsed page's type
is the classification of its (trimmed) content; and the spec's scenario
text parses to 3 pages typed [cover, content, summary] with contents
trimmed to their segments. -/
theorem parseOutline_label_mapping :
    (∀ t : String, extractLabel t.data = none → classifyType t = .content) ∧
    (∀ t : String, extractLabel t.data = some "封面".data →
      classifyType t = .cover) ∧
    (∀ t : String, extractLabel t.data = some "内容".data →
      classifyType t = .content) ∧
    (∀ t : String, extractLabel t.data = some "总结".data →
      classifyType t = .summary) ∧
    (∀ (t : String) (l : List Char), extractLabel t.data = some l →
      l.asString ∉ (["封面", "内容", "总结"] : List String) →
      classifyType t = .content) ∧
    (∀ (s : String), ∀ p ∈ parseOutline s, p.type = classifyType p.content) ∧
    parseOutline pageScenario =
      [⟨0, .cover, "[封面]\nA"⟩, ⟨1, .content, "[内容]\nB"⟩,
        ⟨2, .summary, "[总结]\nC"⟩] := by
  refine ⟨?_, ?_, ?_, ?_, ?_, ?_, by decide⟩
  · intro t h
    simp [classifyType, h]
  · intro t h
    simp [classifyType, h]
    decide
  · intro t h
    simp [classifyType, h]
    decide
  · intro t h
    simp [classifyType, h]
    decide
  · intro t l h hne
    simp only [classifyType, h]
    simp only [List.mem_cons, List.mem_singleton, not_or] at hne
    simp [typeMapping, hne.1, hne.2.1, hne.2.2]
  · intro s p hp
    unfold parseOutline at hp
    rcases List.mem_filterMap.mp hp with ⟨a, _, ha⟩
    by_cases hblank : jsTrim a.2 = ""
    · simp [hblank] at ha
    · simp only [if_neg hblank] at ha
      cases ha
      rfl

/-- C9 (witness): the mapping conjuncts instantiated at concrete page
texts. -/
theorem parseOutline_label_mapping_witness :
    classifyType "[封面]\nA" = .cover ∧ classifyType "[随机]x" = .content ∧
    classifyType "plain" = .content :=
  ⟨parseOutline_label_mapping.2.1 "[封面]\nA" (by decide),
   parseOutline_label_mapping.2.2.2.2.1 "[随机]x" ['随', '机'] (by decide)
     (by decide),
   parseOutline_label_mapping.1 "plain" (by decide)⟩

/-! ### History store lemmas -/

theorem jsSlice_subset {α : Type} (l : List α) (a b : Int) :
    jsSlice l a b ⊆ l :=
  fun _ hx => List.take_subset _ _ (List.drop_subset _ _ hx)

theorem mem_of_mem_listRecords {s : HistoryState} {page pageSize : Int}
    {st : Option String} {e : HistoryIndexRecord}
    (h : e ∈ (listRecords s page pageSize st).records) : e ∈ s.index := by
  unfold listRecords at h
  rcases st with _ | t
  · exact jsSlice_subset _ _ _ h
  · by_cases ht : t = ""
    · simp only [ht, if_pos rfl] at h
      exact jsSlice_subset _ _ _ h
    · simp only [if_neg ht] at h
      exact (List.mem_filter.mp (jsSlice_subset _ _ _ h)).1

/-- C10: `updateRecord` on an id whose detail file is missing or cannot be
parsed returns `false` and leaves the whole store (index file, every
detail file, every task directory) unchanged. -/
theorem updateRecord_missing_is_noop (now : Nat) (s : HistoryState)
    (recordId : String) (u : UpdatesData)
    (h : getRecord s recordId = none) :
    updateRecord now s recordId u = (false, s) := by
  unfold updateRecord
  rw [h]

/-- C10 (witness): no-op on a store whose only detail file is unparseable. -/
theorem updateRecord_missing_is_noop_witness :
    updateRecord 3
      ⟨[], fun k => if k = "r9" then some .corrupt else none, fun _ => none⟩
      "r9" ⟨none, none, some "completed", none⟩ =
    (false,
      ⟨[], fun k => if k = "r9" then some .corrupt else none, fun _ => none⟩) :=
  updateRecord_missing_is_noop 3 _ "r9" _ rfl

/-- C8: deleting an existing record removes its detail file, removes its
task image directory, and the record id appears in no subsequent
`listRecords` or `searchRecords` result. -/
theorem deleteRecord_removes_everywhere (s : HistoryState) (recordId : String)
    (r : HistoryRecord) (h : getRecord s recordId = some r) :
    (deleteRecord s recordId).1 = true ∧
    (deleteRecord s recordId).2.details recordId = none ∧
    (∀ t, r.images.task_id = some t → t ≠ "" →
      (deleteRecord s recordId).2.taskDirs t = none) ∧
    (∀ (page pageSize : Int) (st : Option String) (e : HistoryIndexRecord),
      e ∈ (listRecords (deleteRecord s recordId).2 page pageSize st).records →
      e.id ≠ recordId) ∧
    (∀ (kw : String) (e : HistoryIndexRecord),
      e ∈ searchRecords (deleteRecord s recordId).2 kw → e.id ≠ recordId) := by
  have hdel : deleteRecord s recordId =
      (true,
       ⟨s.index.filter (fun e => decide (e.id ≠ recordId)),
        fun k => if k = recordId then none else s.details k,
        match r.images.task_id with
        | some t => if t = "" then s.taskDirs
            else fun k => if k = t then none else s.taskDirs k
        | none => s.taskDirs⟩) := by
    unfold deleteRecord
    rw [h]
  refine ⟨by rw [hdel], by rw [hdel]; simp, ?_, ?_, ?_⟩
  · intro t ht hne
    rw [hdel]
    simp only [ht, if_neg hne]
    simp
  · intro page pageSize st e he
    have := mem_of_mem_listRecords he
    rw [hdel] at this
    simpa using (List.mem_filter.mp this).2
  · intro kw e he
    rw [hdel] at he
    unfold searchRecords at he
    have := (List.mem_filter.mp he).1
    simpa using (List.mem_filter.mp this).2

/-- C8 (witness): deleting `r1` from the sample store empties its detail
file, removes directory `t1`, and drops it from a concrete list/search. -/
theorem deleteRecord_removes_everywhere_witness :
    (deleteRecord sampleState "r1").1 = true ∧
    (deleteRecord sampleState "r1").2.details "r1" = none ∧
    (deleteRecord sampleState "r1").2.taskDirs "t1" = none :=
  ⟨(deleteRecord_removes_everywhere sampleState "r1" sampleRecord rfl).1,
   (deleteRecord_removes_everywhere sampleState "r1" sampleRecord rfl).2.1,
   (deleteRecord_removes_everywhere sampleState "r1" sampleRecord
      rfl).2.2.1 "t1" rfl (by decide)⟩

theorem patchFirst_map_key {α β : Type} (key : α → β) (p : α → Bool)
    (f : α → α) (hf : ∀ x, key (f x) = key x) (l : List α) :
    (patchFirst p f l).map key = l.map key := by
  induction l with
  | nil => rfl
  | cons x xs ih =>
    simp only [patchFirst]
    split
    · simp [hf]
    · simp [ih]

theorem mem_patchFirst_of_nodup {α : Type} {rid : String}
    {f : α → α} {key : α → String} {l : List α}
    (hnd : (l.map key).Nodup) {x : α}
    (hx : x ∈ patchFirst (fun e => decide (key e = rid)) f l) :
    (x ∈ l ∧ key x ≠ rid) ∨ (∃ e ∈ l, key e = rid ∧ x = f e) := by
  induction l with
  | nil => simp [patchFirst] at hx
  | cons a t ih =>
    rw [List.map_cons, List.nodup_cons] at hnd
    simp only [patchFirst] at hx
    by_cases ha : key a = rid
    · rw [if_pos (by simp [ha])] at hx
      rcases List.mem_cons.mp hx with h1 | h2
      · exact Or.inr ⟨a, List.mem_cons_self a t, ha, h1⟩
      · refine Or.inl ⟨List.mem_cons_of_mem _ h2, fun hxk => ?_⟩
        exact hnd.1 (by rw [ha, ← hxk]; exact List.mem_map_of_mem key h2)
    · rw [if_neg (by simp [ha])] at hx
      rcases List.mem_cons.mp hx with h1 | h2
      · exact Or.inl ⟨by rw [h1]; exact List.mem_cons_self a t, by rw [h1]; exact ha⟩
      · rcases ih hnd.2 h2 with h | ⟨e, he, hek, hxe⟩
        · exact Or.inl ⟨List.mem_cons_of_mem _ h.1, h.2⟩
        · exact Or.inr ⟨e, List.mem_cons_of_mem _ he, hek, hxe⟩

theorem entryOkB_congr {s s' : HistoryState} {e : HistoryIndexRecord}
    (h : getRecord s' e.id = getRecord s e.id) :
    entryOkB s' e = entryOkB s e := by
  unfold entryOkB
  rw [h]

theorem indexConsistent_iff {s : HistoryState} :
    indexConsistent s ↔ ∀ e ∈ s.index, entryOkB s e = true := by
  unfold indexConsistent
  exact List.all_eq_true

theorem patchIndexEntry_id (now : Nat) (u : UpdatesData)
    (e : HistoryIndexRecord) : (patchIndexEntry now u e).id = e.id := rfl

/-- Field-by-field: a consistent entry stays consistent with the updated
record when the updates are truthy. -/
theorem patchIndexEntry_matches (now : Nat) (u : UpdatesData)
    (hu : updatesTruthy u) (e : HistoryIndexRecord) (record : HistoryRecord)
    (hst : e.status = record.status) (hth : e.thumbnail = record.thumbnail)
    (hpc : e.page_count = record.outline.pages.length)
    (htk : e.task_id = record.images.task_id) :
    (patchIndexEntry now u e).status = (applyUpdates now u record).status ∧
    (patchIndexEntry now u e).thumbnail =
      (applyUpdates now u record).thumbnail ∧
    (patchIndexEntry now u e).updated_at =
      (applyUpdates now u record).updated_at ∧
    (patchIndexEntry now u e).page_count =
      (applyUpdates now u record).outline.pages.length ∧
    (patchIndexEntry now u e).task_id =
      (applyUpdates now u record).images.task_id := by
  obtain ⟨hus, hut, hui⟩ := hu
  refine ⟨?_, ?_, rfl, ?_, ?_⟩
  · rcases h : u.status with _ | t
    · simp [patchIndexEntry, applyUpdates, h, hst]
    · simp [patchIndexEntry, applyUpdates, h, if_neg (hus t h)]
  · rcases h : u.thumbnail with _ | t
    · simp [patchIndexEntry, applyUpdates, h, hth]
    · simp [patchIndexEntry, applyUpdates, h, if_neg (hut t h)]
  · rcases h : u.outline with _ | o
    · simp [patchIndexEntry, applyUpdates, h, hpc]
    · simp [patchIndexEntry, applyUpdates, h]
  · rcases h : u.images with _ | im
    · simp [patchIndexEntry, applyUpdates, h, htk]
    · obtain ⟨t, hti, htne⟩ := hui im h
      simp [patchIndexEntry, applyUpdates, h, hti, if_neg htne]

/-- `updateRecord` keeps the store well-formed when the provided updates
are truthy (C3's amended side-condition). -/
theorem historyWellFormed_updateRecord (now : Nat) (s : HistoryState)
    (recordId : String) (u : UpdatesData)
    (hw : historyWellFormed s) (hu : updatesTruthy u) :
    historyWellFormed (updateRecord now s recordId u).2 := by
  rcases hrec : getRecord s recordId with _ | record
  · rw [updateRecord_missing_is_noop now s recordId u hrec]
    exact hw
  · unfold updateRecord
    rw [hrec]
    simp only
    constructor
    · rw [patchFirst_map_key HistoryIndexRecord.id _ _
        (patchIndexEntry_id now u)]
      exact hw.1
    · rw [indexConsistent_iff]
      intro e' he'
      rcases mem_patchFirst_of_nodup hw.1 he' with ⟨hmem, hne⟩ | ⟨e, he, heid, heq⟩
      · rw [entryOkB_congr (by simp only [getRecord]; rw [if_neg hne])]
        exact (indexConsistent_iff.mp hw.2) e' hmem
      · have hold := (indexConsistent_iff.mp hw.2) e he
        unfold entryOkB at hold
        rw [show getRecord s e.id = some record from by rw [heid]; exact hrec]
          at hold
        simp only [Bool.and_eq_true, decide_eq_true_eq] at hold
        obtain ⟨⟨⟨⟨hst, hth⟩, _⟩, hpc⟩, htk⟩ := hold
        obtain ⟨m1, m2, m3, m4, m5⟩ :=
          patchIndexEntry_matches now u hu e record hst hth hpc htk
        subst heq
        unfold entryOkB
        rw [show getRecord
            (⟨patchFirst (fun e => decide (e.id = recordId))
                (patchIndexEntry now u) s.index,
              fun k => if k = recordId then
                some (.ok (applyUpdates now u record)) else s.details k,
              s.taskDirs⟩ : HistoryState) (patchIndexEntry now u e).id =
            some (applyUpdates now u record) from by
          simp [getRecord, patchIndexEntry_id, heid]]
        simp [m1, m2, m3, m4, m5]

/-- `createRecord` with a fresh uuid keeps the store well-formed. -/
theorem historyWellFormed_createRecord (now : Nat) (s : HistoryState)
    (recordId topic : String) (outline : OutlineData) (taskId : Option String)
    (hw : historyWellFormed s)
    (hfresh : recordId ∉ s.index.map HistoryIndexRecord.id) :
    historyWellFormed (createRecord now s recordId topic outline taskId) := by
  constructor
  · simp only [createRecord, List.map_cons]
    exact List.nodup_cons.mpr ⟨by simpa using hfresh, hw.1⟩
  · rw [indexConsistent_iff]
    intro e' he'
    simp only [createRecord] at he'
    rcases List.mem_cons.mp he' with h1 | h2
    · subst h1
      simp [entryOkB, getRecord, createRecord]
    · have hne : e'.id ≠ recordId :=
        fun hk => hfresh (hk ▸ List.mem_map_of_mem _ h2)
      rw [entryOkB_congr (s := s)
        (by simp only [createRecord, getRecord]; rw [if_neg hne])]
      exact indexConsistent_iff.mp hw.2 e' h2

/-- `deleteRecord` keeps the store well-formed. -/
theorem historyWellFormed_deleteRecord (s : HistoryState) (recordId : String)
    (hw : historyWellFormed s) :
    historyWellFormed (deleteRecord s recordId).2 := by
  rcases hrec : getRecord s recordId with _ | record
  · unfold deleteRecord
    rw [hrec]
    exact hw
  · unfold deleteRecord
    rw [hrec]
    simp only
    constructor
    · exact hw.1.sublist ((List.filter_sublist s.index).map _)
    · rw [indexConsistent_iff]
      intro e' he'
      have hmem := (List.mem_filter.mp he').1
      have hne : e'.id ≠ recordId := by
        simpa using (List.mem_filter.mp he').2
      rw [entryOkB_congr (s := s)
        (by simp only [getRecord]; rw [if_neg hne])]
      exact indexConsistent_iff.mp hw.2 e' hmem

theorem scanStatus_ne_empty (a e : Nat) : scanStatus a e ≠ "" := by
  unfold scanStatus
  split
  · decide
  · split <;> decide

theorem keepImageFile_ne_empty {f : String} (h : keepImageFile f = true) :
    f ≠ "" := by
  intro he
  rw [he] at h
  exact absurd h (by decide)

theorem mem_of_mem_sortImageFiles {f : String} {files : List String}
    (h : f ∈ sortImageFiles files) : f ∈ files := by
  unfold sortImageFiles at h
  exact (List.perm_insertionSort _ _).mem_iff.mp h

/-- `scanAndSyncTaskImages` (over a non-empty task id, the only shape the
routes produce) keeps the store well-formed: the repair it pushes through
`updateRecord` is made of truthy fields. -/
theorem historyWellFormed_scan (now : Nat) (s : HistoryState)
    (taskId : String) (hw : historyWellFormed s) (ht : taskId ≠ "") :
    historyWellFormed (scanAndSyncTaskImages now s taskId).2 := by
  unfold scanAndSyncTaskImages
  rcases hdir : s.taskDirs taskId with _ | files
  · exact hw
  · simp only
    rcases hfind : findTaskRecord s taskId with _ | rid
    · exact hw
    · simp only
      rcases hrec : getRecord s rid with _ | record
      · exact hw
      · simp only
        apply historyWellFormed_updateRecord _ _ _ _ hw
        refine ⟨fun t hti => ?_, fun t hti => ?_, fun im him => ?_⟩
        · cases hti
          exact scanStatus_ne_empty _ _
        · rcases himg : sortImageFiles (files.filter keepImageFile) with _ | ⟨f, rest⟩
          · rw [himg] at hti
            exact absurd hti (by simp)
          · rw [himg] at hti
            simp only [Option.some.injEq] at hti
            subst hti
            have hf : f ∈ sortImageFiles (files.filter keepImageFile) := by
              rw [himg]
              exact List.mem_cons_self f rest
            exact keepImageFile_ne_empty
              (List.mem_filter.mp (mem_of_mem_sortImageFiles hf)).2
        · cases him
          exact ⟨taskId, rfl, ht⟩

/-- C3 (counterexample): from the consistent sample store, a successful
`updateRecord` carrying `images` with a `null` `task_id` (exactly what a
`PUT /history/:id` body may contain) rewrites the detail file but leaves
the index entry's `task_id` untouched, breaking index/detail agreement. -/
theorem updateRecord_index_drift_counterexample :
    historyWellFormed sampleState ∧
    (updateRecord 7 sampleState "r1"
      ⟨none, some ⟨none, ["0.png"]⟩, none, none⟩).1 = true ∧
    ¬ indexConsistent (updateRecord 7 sampleState "r1"
      ⟨none, some ⟨none, ["0.png"]⟩, none, none⟩).2 := by
  refine ⟨?_, rfl, ?_⟩
  · unfold historyWellFormed indexConsistent
    exact ⟨by decide, by decide⟩
  · unfold indexConsistent
    decide

/-- C3 (amended): every mutating `HistoryService` operation that returns
success preserves index/detail agreement on the denormalized fields
(status, thumbnail, updated_at, page_count, task_id) — for `createRecord`
under a fresh uuid, for `deleteRecord` unconditionally, for
`scanAndSyncTaskImages` under a non-empty task id, and for `updateRecord`
provided each supplied field is truthy (non-empty status/thumbnail,
non-null non-empty `images.task_id`); with falsy supplied fields the
detail file changes while the index entry does not (see the
counterexample). -/
theorem history_mutations_preserve_consistency :
    (∀ (now : Nat) (s : HistoryState) (recordId topic : String)
      (outline : OutlineData) (taskId : Option String),
      historyWellFormed s → recordId ∉ s.index.map HistoryIndexRecord.id →
      historyWellFormed (createRecord now s recordId topic outline taskId)) ∧
    (∀ (now : Nat) (s : HistoryState) (recordId : String) (u : UpdatesData),
      historyWellFormed s → updatesTruthy u →
      historyWellFormed (updateRecord now s recordId u).2) ∧
    (∀ (s : HistoryState) (recordId : String),
      historyWellFormed s → historyWellFormed (deleteRecord s recordId).2) ∧
    (∀ (now : Nat) (s : HistoryState) (taskId : String),
      historyWellFormed s → taskId ≠ "" →
      historyWellFormed (scanAndSyncTaskImages now s taskId).2) :=
  ⟨historyWellFormed_createRecord, historyWellFormed_updateRecord,
   historyWellFormed_deleteRecord, historyWellFormed_scan⟩

/-- C3 (witness): a truthy update on the sample store keeps it
well-formed. -/
theorem history_mutations_preserve_consistency_witness :
    historyWellFormed (updateRecord 7 sampleState "r1"
      ⟨none, some ⟨some "t2", ["0.png"]⟩, some "completed", none⟩).2 := by
  apply history_mutations_preserve_consistency.2.1
  · unfold historyWellFormed indexConsistent
    exact ⟨by decide, by decide⟩
  · unfold updatesTruthy
    refine ⟨fun t h => ?_, fun t h => ?_, fun im h => ?_⟩
    · cases h
      decide
    · cases h
    · cases h
      exact ⟨"t2", rfl, by decide⟩

/-! ### Orchestrator lemmas -/

theorem attemptedPages_perm (pages : List PageData)
    (h : pages.countP (fun p => decide (p.type = .cover)) ≤ 1) :
    (attemptedPages pages).Perm pages := by
  have hlen : (pages.filter (fun p => decide (p.type = .cover))).length ≤ 1 := by
    rw [← List.countP_eq_length_filter]
    exact h
  rcases hf : pages.filter (fun p => decide (p.type = .cover)) with _ | ⟨c, rest⟩
  · unfold attemptedPages coverSplit
    rw [hf]
    simp only [List.getLast?_nil]
    cases pages with
    | nil => exact List.Perm.refl _
    | cons p ps => exact List.Perm.refl _
  · have hrest : rest = [] := by
      rw [hf] at hlen
      simpa using hlen
    subst hrest
    unfold attemptedPages coverSplit
    rw [hf]
    simp only [List.getLast?_singleton]
    have hco : pages.filter (fun p => decide (p.type ≠ .cover)) =
        pages.filter (fun p => !(decide (p.type = .cover))) :=
      List.filter_congr (fun x _ => by simp)
    rw [hco]
    have hperm :=
      List.filter_append_perm (fun p => decide (p.type = PageType.cover)) pages
    rw [hf] at hperm
    simpa using hperm

theorem genCounts_sum (pages : List PageData) (res : Nat → Bool) :
    (genSuccessList pages res).length + (genFailedList pages res).length =
      (attemptedPages pages).length := by
  unfold genSuccessList genFailedList
  rw [List.length_map]
  have hperm :=
    (List.filter_append_perm (fun p => res p.index) (attemptedPages pages)).length_eq
  rw [List.length_append] at hperm
  exact hperm

theorem genSuccessList_length (pages : List PageData) (res : Nat → Bool)
    (h : pages.countP (fun p => decide (p.type = .cover)) ≤ 1) :
    (genSuccessList pages res).length = pages.countP (fun p => res p.index) := by
  unfold genSuccessList
  rw [List.length_map, ← List.countP_eq_length_filter]
  exact (attemptedPages_perm pages h).countP_eq _

theorem genFailedList_length (pages : List PageData) (res : Nat → Bool)
    (h : pages.countP (fun p => decide (p.type = .cover)) ≤ 1) :
    (genFailedList pages res).length =
      pages.countP (fun p => !res p.index) := by
  unfold genFailedList
  rw [← List.countP_eq_length_filter]
  exact (attemptedPages_perm pages h).countP_eq _

theorem causalOk_append {l₁ l₂ : List GenEvent} (h₁ : causalOk l₁)
    (h₂ : causalOk l₂) : causalOk (l₁ ++ l₂) := by
  intro j e i hj hr
  by_cases hlt : j < l₁.length
  · rw [List.get?_append hlt] at hj
    obtain ⟨k, e', hk, hke, hpe⟩ := h₁ j e i hj hr
    exact ⟨k, e', hk, by rw [List.get?_append (hk.trans hlt)]; exact hke, hpe⟩
  · push_neg at hlt
    rw [List.get?_append_right hlt] at hj
    obtain ⟨k, e', hk, hke, hpe⟩ := h₂ _ e i hj hr
    refine ⟨l₁.length + k, e', by omega, ?_, hpe⟩
    rw [List.get?_append_right (by omega)]
    simpa using hke

theorem causalOk_append_covered {l₁ l₂ : List GenEvent} (h₁ : causalOk l₁)
    (hcov : ∀ e ∈ l₂, ∀ i, isResultOf i e →
      ∃ e' ∈ l₁, isProgressOf i e') : causalOk (l₁ ++ l₂) := by
  intro j e i hj hr
  by_cases hlt : j < l₁.length
  · rw [List.get?_append hlt] at hj
    obtain ⟨k, e', hk, hke, hpe⟩ := h₁ j e i hj hr
    exact ⟨k, e', hk, by rw [List.get?_append (hk.trans hlt)]; exact hke, hpe⟩
  · push_neg at hlt
    rw [List.get?_append_right hlt] at hj
    obtain ⟨e', he'mem, hpe⟩ := hcov e (List.get?_mem hj) i hr
    obtain ⟨k, hk⟩ := List.mem_iff_get?.mp he'mem
    have hklt : k < l₁.length := by
      by_contra hge
      push_neg at hge
      rw [List.get?_eq_none.mpr hge] at hk
      exact Option.noConfusion hk
    exact ⟨k, e', by omega, by rw [List.get?_append hklt]; exact hk, hpe⟩

theorem causalOk_of_no_results {l : List GenEvent}
    (h : ∀ e ∈ l, ∀ i, ¬ isResultOf i e) : causalOk l :=
  fun j e i hj hr => absurd hr (h e (List.get?_mem hj) i)

theorem causalOk_pair (res : Nat → Bool) (ph : EvPhase) (p : PageData) :
    causalOk [GenEvent.progress (some p.index) ph, pageResultEv res ph p] := by
  intro j e i hj hr
  match j, hj with
  | 0, hj =>
    cases Option.some.inj hj
    exact absurd hr (by simp [isResultOf])
  | 1, hj =>
    cases Option.some.inj hj
    have hi : p.index = i := by
      unfold pageResultEv at hr
      split at hr <;> exact hr
    exact ⟨0, .progress (some p.index) ph, by omega, rfl, hi⟩

theorem causalOk_seqContentEvs (res : Nat → Bool) (others : List PageData) :
    causalOk (seqContentEvs res others) := by
  induction others with
  | nil =>
    intro j e i hj hr
    simp [seqContentEvs] at hj
  | cons p ps ih =>
    have hsplit : seqContentEvs res (p :: ps) =
        [GenEvent.progress (some p.index) .content,
         pageResultEv res .content p] ++ seqContentEvs res ps := by
      simp [seqContentEvs]
    rw [hsplit]
    exact causalOk_append (causalOk_pair res .content p) ih

theorem causalOk_hcContentEvs (res : Nat → Bool) (others : List PageData) :
    causalOk (hcContentEvs res others) := by
  unfold hcContentEvs
  apply causalOk_append_covered
  · apply causalOk_of_no_results
    intro e he i
    obtain ⟨p, _, hpe⟩ := List.mem_map.mp he
    rw [← hpe]
    simp [isResultOf]
  · intro e he i hr
    obtain ⟨p, hpmem, hpe⟩ := List.mem_map.mp he
    have hi : p.index = i := by
      rw [← hpe] at hr
      unfold pageResultEv at hr
      split at hr <;> exact hr
    exact ⟨.progress (some p.index) .content,
      List.mem_map_of_mem _ hpmem, hi⟩

theorem causalOk_contentEvs (hc : Bool) (res : Nat → Bool)
    (others : List PageData) : causalOk (contentEvs hc res others) := by
  cases others with
  | nil =>
    intro j e i hj hr
    simp [contentEvs] at hj
  | cons p ps =>
    have hsplit : contentEvs hc res (p :: ps) =
        [GenEvent.progress none .content] ++
          (if hc then hcContentEvs res (p :: ps)
           else seqContentEvs res (p :: ps)) := by
      simp [contentEvs]
    rw [hsplit]
    apply causalOk_append
    · apply causalOk_of_no_results
      intro e he i
      simp only [List.mem_singleton] at he
      rw [he]
      simp [isResultOf]
    · cases hc
      · simpa using causalOk_seqContentEvs res (p :: ps)
      · simpa using causalOk_hcContentEvs res (p :: ps)

theorem coverEvs_phase (res : Nat → Bool) (c : PageData) :
    ∀ e ∈ coverEvs res c, evPhase e = some .cover := by
  intro e he
  rcases List.mem_cons.mp he with h1 | h2
  · rw [h1]
    rfl
  · simp only [coverEvs, List.mem_singleton] at h2
    rw [h2]
    unfold pageResultEv
    split <;> rfl

theorem contentEvs_phase (hc : Bool) (res : Nat → Bool)
    (others : List PageData) :
    ∀ e ∈ contentEvs hc res others, evPhase e = some .content := by
  intro e he
  cases others with
  | nil => simp [contentEvs] at he
  | cons p ps =>
    simp only [contentEvs] at he
    rcases List.mem_cons.mp he with h1 | h2
    · rw [h1]
      rfl
    · have hin : e ∈ hcContentEvs res (p :: ps) ∨
          e ∈ seqContentEvs res (p :: ps) := by
        by_cases h : hc
        · simp only [h, if_true] at h2
          exact Or.inl h2
        · simp only [if_neg h] at h2
          exact Or.inr h2
      rcases hin with h | h
      · unfold hcContentEvs at h
        rcases List.mem_append.mp h with h3 | h3
        · obtain ⟨q, _, hq⟩ := List.mem_map.mp h3
          rw [← hq]
          rfl
        · obtain ⟨q, _, hq⟩ := List.mem_map.mp h3
          rw [← hq]
          unfold pageResultEv
          split <;> rfl
      · unfold seqContentEvs at h
        obtain ⟨q, _, hq⟩ := List.mem_flatMap.mp h
        rcases List.mem_cons.mp hq with h4 | h4
        · rw [h4]
          rfl
        · simp only [List.mem_singleton] at h4
          rw [h4]
          unfold pageResultEv
          split <;> rfl

/-- C4: in every run (both concurrency modes, cover success or failure),
every cover-phase event precedes every content-phase event, and every
page's `complete`/`error` event is preceded by a `progress` event carrying
that page's index. -/
theorem generateImages_event_order (pages : List PageData) (res : Nat → Bool)
    (hc : Bool) :
    (∀ (i j : Nat) (e₁ e₂ : GenEvent),
      (generateImagesEvents pages res hc).get? i = some e₁ →
      (generateImagesEvents pages res hc).get? j = some e₂ →
      evPhase e₁ = some .cover → evPhase e₂ = some .content → i < j) ∧
    causalOk (generateImagesEvents pages res hc) := by
  constructor
  · intro i j e₁ e₂ hi hj hp₁ hp₂
    set C : List GenEvent := match (coverSplit pages).1 with
      | some c => coverEvs res c
      | none => [] with hC
    set R : List GenEvent :=
      contentEvs hc res (coverSplit pages).2 ++ [finishEv pages res] with hR
    have hevs : generateImagesEvents pages res hc = C ++ R := by
      unfold generateImagesEvents
      rw [List.append_assoc, hR]
    have hCphase : ∀ e ∈ C, evPhase e = some .cover := by
      rw [hC]
      rcases (coverSplit pages).1 with _ | c
      · simp
      · simpa using coverEvs_phase res c
    have hRphase : ∀ e ∈ R, evPhase e ≠ some .cover := by
      intro e he
      rcases List.mem_append.mp he with h1 | h1
      · rw [contentEvs_phase hc res _ e h1]
        simp
      · simp only [List.mem_singleton] at h1
        rw [h1]
        unfold evPhase finishEv
        simp
    rw [hevs] at hi hj
    have hiC : i < C.length := by
      by_contra hge
      push_neg at hge
      rw [List.get?_append_right hge] at hi
      exact hRphase e₁ (List.get?_mem hi) hp₁
    have hjC : ¬ j < C.length := by
      intro hlt
      rw [List.get?_append hlt] at hj
      have := hCphase e₂ (List.get?_mem hj)
      rw [hp₂] at this
      simp at this
    omega
  · unfold generateImagesEvents
    apply causalOk_append
    · apply causalOk_append
      · rcases (coverSplit pages).1 with _ | c
        · intro j e i hj hr
          simp at hj
        · exact causalOk_pair res .cover c
      · exact causalOk_contentEvs hc res _
    · apply causalOk_of_no_results
      intro e he i
      simp only [List.mem_singleton] at he
      rw [he]
      unfold finishEv
      simp [isResultOf]

/-- C4 (witness): the theorem applied to a concrete two-page run, placing
the cover progress (position 0) before the content batch progress
(position 2). -/
theorem generateImages_event_order_witness :
    (generateImagesEvents [⟨0, .cover, "a"⟩, ⟨1, .content, "b"⟩]
      (fun _ => true) false).get? 0 = some (.progress (some 0) .cover) ∧
    (generateImagesEvents [⟨0, .cover, "a"⟩, ⟨1, .content, "b"⟩]
      (fun _ => true) false).get? 2 = some (.progress none .content) ∧
    (0 : Nat) < 2 :=
  ⟨rfl, rfl,
   (generateImages_event_order [⟨0, .cover, "a"⟩, ⟨1, .content, "b"⟩]
      (fun _ => true) false).1 0 2 _ _ rfl rfl rfl rfl⟩

theorem generateImagesEvents_getLast (pages : List PageData)
    (res : Nat → Bool) (hc : Bool) :
    (generateImagesEvents pages res hc).getLast? = some (finishEv pages res) := by
  unfold generateImagesEvents
  rw [List.getLast?_concat]

/-- C5: the terminal `finish` event reports `completed` = number of pages
whose generation succeeded, `failed` = number of pages whose generation
failed, `failed_indices` = the indices of the failed pages, and `success`
true iff no page failed (over a pages list with at most one explicitly
cover-typed page, so that every page is attempted exactly once); in
particular the 5-page scenario with successes {0,1,2} finishes with
completed=3, failed=2, failed_indices=[3,4]. -/
theorem generateImages_finish_summary (pages : List PageData)
    (res : Nat → Bool) (hc : Bool)
    (h : pages.countP (fun p => decide (p.type = .cover)) ≤ 1) :
    (generateImagesEvents pages res hc).getLast? =
      some (finishEv pages res) ∧
    (genSuccessList pages res).length = pages.countP (fun p => res p.index) ∧
    (genFailedList pages res).length =
      pages.countP (fun p => !res p.index) ∧
    ((genFailedList pages res).map PageData.index).Perm
      ((pages.filter (fun p => !res p.index)).map PageData.index) ∧
    ((genFailedList pages res).length = 0 ↔
      pages.countP (fun p => !res p.index) = 0) ∧
    (generateImagesEvents scenarioPages scenarioRes hc).getLast? =
      some (.finish false ["0.png", "1.png", "2.png"] 5 3 2 [3, 4]) := by
  refine ⟨generateImagesEvents_getLast pages res hc,
    genSuccessList_length pages res h, genFailedList_length pages res h,
    ?_, ?_, ?_⟩
  · exact (((attemptedPages_perm pages h).filter _).map PageData.index)
  · rw [genFailedList_length pages res h]
  · rw [generateImagesEvents_getLast scenarioPages scenarioRes hc]
    decide

/-- C5 (witness): the scenario instance extracted from the theorem. -/
theorem generateImages_finish_summary_witness :
    (generateImagesEvents scenarioPages scenarioRes false).getLast? =
      some (.finish false ["0.png", "1.png", "2.png"] 5 3 2 [3, 4]) :=
  (generateImages_finish_summary scenarioPages scenarioRes false
    (by decide)).2.2.2.2.2

theorem genFinalStatus_iff (pages : List PageData) (res : Nat → Bool)
    (hne : pages ≠ [])
    (h : pages.countP (fun p => decide (p.type = .cover)) ≤ 1) :
    (genFinalStatus pages res = "completed" ↔
      (genSuccessList pages res).length = pages.length) ∧
    (genFinalStatus pages res = "partial" ↔
      0 < (genSuccessList pages res).length ∧
        (genSuccessList pages res).length < pages.length) ∧
    (genFinalStatus pages res = "draft" ↔
      (genSuccessList pages res).length = 0) := by
  have hsum : (genSuccessList pages res).length +
      (genFailedList pages res).length = pages.length := by
    rw [genCounts_sum pages res]
    exact (attemptedPages_perm pages h).length_eq
  have hpos : 0 < pages.length := List.length_pos.mpr hne
  unfold genFinalStatus
  by_cases hF : (genFailedList pages res).length = 0
  · rw [if_pos hF]
    refine ⟨⟨fun _ => by omega, fun _ => rfl⟩,
      ⟨fun hcon => absurd hcon (by decide), fun hcon => by exfalso; omega⟩,
      ⟨fun hcon => absurd hcon (by decide), fun hcon => by exfalso; omega⟩⟩
  · rw [if_neg hF]
    by_cases hS : 0 < (genSuccessList pages res).length
    · rw [if_pos hS]
      refine ⟨⟨fun hcon => absurd hcon (by decide), fun hcon => by exfalso; omega⟩,
        ⟨fun _ => ⟨hS, by omega⟩, fun _ => rfl⟩,
        ⟨fun hcon => absurd hcon (by decide), fun hcon => by exfalso; omega⟩⟩
    · rw [if_neg hS]
      refine ⟨⟨fun hcon => absurd hcon (by decide), fun hcon => by exfalso; omega⟩,
        ⟨fun hcon => absurd hcon (by decide), fun hcon => by exfalso; omega⟩,
        ⟨fun _ => by omega, fun _ => rfl⟩⟩

theorem scanStatus_iff (a e : Nat) :
    (scanStatus a e = "draft" ↔ a = 0) ∧
    (scanStatus a e = "completed" ↔ a ≠ 0 ∧ e ≤ a) ∧
    (scanStatus a e = "partial" ↔ 0 < a ∧ a < e) ∧
    (0 < a → a ≤ e → (scanStatus a e = "completed" ↔ a = e)) := by
  unfold scanStatus
  by_cases h0 : a = 0
  · rw [if_pos h0]
    refine ⟨⟨fun _ => h0, fun _ => rfl⟩,
      ⟨fun hcon => absurd hcon (by decide), fun hcon => absurd h0 hcon.1⟩,
      ⟨fun hcon => absurd hcon (by decide), fun hcon => by omega⟩,
      fun ha _ => absurd h0 (by omega)⟩
  · rw [if_neg h0]
    by_cases hle : e ≤ a
    · rw [if_pos hle]
      refine ⟨⟨fun hcon => absurd hcon (by decide), fun hcon => absurd hcon h0⟩,
        ⟨fun _ => ⟨h0, hle⟩, fun _ => rfl⟩,
        ⟨fun hcon => absurd hcon (by decide), fun hcon => by omega⟩,
        fun _ hle2 => ⟨fun _ => by omega, fun _ => rfl⟩⟩
    · rw [if_neg hle]
      refine ⟨⟨fun hcon => absurd hcon (by decide), fun hcon => absurd hcon h0⟩,
        ⟨fun hcon => absurd hcon (by decide), fun hcon => absurd hcon.2 hle⟩,
        ⟨fun _ => ⟨by omega, by omega⟩, fun _ => rfl⟩,
        fun _ hle2 => ⟨fun hcon => absurd hcon (by decide), fun heq => by omega⟩⟩

/-- The status handed to `updateRecord`, and written into the record's
detail file, by the repairing branch of `scanAndSyncTaskImages`. -/
theorem scan_writes_scanStatus (now : Nat) (s : HistoryState)
    (taskId rid : String)
    (hrid : (scanAndSyncTaskImages now s taskId).1.record_id = some rid) :
    ∃ record, getRecord s rid = some record ∧
      (scanAndSyncTaskImages now s taskId).1.status =
        some (scanStatus (scanAndSyncTaskImages now s taskId).1.images_count
          record.outline.pages.length) ∧
      (getRecord (scanAndSyncTaskImages now s taskId).2 rid).map
          HistoryRecord.status =
        some (scanStatus (scanAndSyncTaskImages now s taskId).1.images_count
          record.outline.pages.length) := by
  unfold scanAndSyncTaskImages at hrid ⊢
  rcases hdir : s.taskDirs taskId with _ | files
  · rw [hdir] at hrid
    simp at hrid
  · rw [hdir] at hrid
    dsimp only at hrid ⊢
    rcases hfind : findTaskRecord s taskId with _ | rid'
    · rw [hfind] at hrid
      simp at hrid
    · rw [hfind] at hrid
      dsimp only at hrid ⊢
      rcases hrec : getRecord s rid' with _ | record
      · rw [hrec] at hrid
        simp at hrid
      · rw [hrec] at hrid
        dsimp only at hrid ⊢
        simp only [Option.some.injEq] at hrid
        subst hrid
        refine ⟨record, hrec, rfl, ?_⟩
        unfold updateRecord
        rw [hrec]
        simp [getRecord, applyUpdates]

/-- C1 (counterexample): from the consistent sample store (expected page
count 1, task directory holding 2 originals), `scanAndSyncTaskImages`
computes and writes status `"completed"` although the generated-image
count (2) differs from the expected page count (1) — the code compares
with `>=`, not equality. -/
theorem scanStatus_overcount_counterexample :
    (scanAndSyncTaskImages 9 sampleState "t1").1.images_count = 2 ∧
    sampleRecord.outline.pages.length = 1 ∧
    (scanAndSyncTaskImages 9 sampleState "t1").1.status = some "completed" ∧
    (getRecord (scanAndSyncTaskImages 9 sampleState "t1").2 "r1").map
      HistoryRecord.status = some "completed" ∧
    (2 : Nat) ≠ 1 := by
  refine ⟨by decide, rfl, by decide, by decide, by decide⟩

/-- C1 (amended): (a) for `generateImages` over a non-empty pages list
with at most one explicitly cover-typed page, the final status is
`completed` iff generated-count = expected-page-count, `partial` iff
0 < generated < expected, `draft` iff generated = 0; (b) the repairing
branch of `scanAndSyncTaskImages` writes `scanStatus actual expected`,
where `draft` iff actual = 0, `completed` iff actual ≥ expected with
actual > 0 (so the claimed equality-iff holds only when the directory
holds no more images than expected, `actual ≤ expected`), and `partial`
iff 0 < actual < expected. -/
theorem record_status_invariant :
    (∀ (pages : List PageData) (res : Nat → Bool), pages ≠ [] →
      pages.countP (fun p => decide (p.type = .cover)) ≤ 1 →
      (genFinalStatus pages res = "completed" ↔
        (genSuccessList pages res).length = pages.length) ∧
      (genFinalStatus pages res = "partial" ↔
        0 < (genSuccessList pages res).length ∧
          (genSuccessList pages res).length < pages.length) ∧
      (genFinalStatus pages res = "draft" ↔
        (genSuccessList pages res).length = 0)) ∧
    (∀ (now : Nat) (s : HistoryState) (taskId rid : String),
      (scanAndSyncTaskImages now s taskId).1.record_id = some rid →
      ∃ record, getRecord s rid = some record ∧
        (getRecord (scanAndSyncTaskImages now s taskId).2 rid).map
            HistoryRecord.status =
          some (scanStatus (scanAndSyncTaskImages now s taskId).1.images_count
            record.outline.pages.length)) ∧
    (∀ a e : Nat,
      (scanStatus a e = "draft" ↔ a = 0) ∧
      (scanStatus a e = "completed" ↔ a ≠ 0 ∧ e ≤ a) ∧
      (scanStatus a e = "partial" ↔ 0 < a ∧ a < e) ∧
      (0 < a → a ≤ e → (scanStatus a e = "completed" ↔ a = e))) :=
  ⟨genFinalStatus_iff,
   fun now s taskId rid hrid =>
     (scan_writes_scanStatus now s taskId rid hrid).elim
       (fun record h => ⟨record, h.1, h.2.2⟩),
   scanStatus_iff⟩

/-- C1 (witness): the generator part at the 5-page scenario (status
`partial`), and the scan part at the sample store. -/
theorem record_status_invariant_witness :
    genFinalStatus scenarioPages scenarioRes = "partial" ∧
    scanStatus 2 2 = "completed" :=
  ⟨(record_status_invariant.1 scenarioPages scenarioRes (by decide)
      (by decide)).2.1.mpr ⟨by decide, by decide⟩,
   ((record_status_invariant.2.2 2 2).2.2.2 (by decide) (by decide)).mpr rfl⟩

/-- C6: with reference images enabled, all three retry/regenerate entry
points resolve the reference exactly as the spec describes: cached cover
bytes when present in `TaskState`, else the byte-budget-compressed `0.png`
when it exists, else none. -/
theorem retry_reference_selection :
    ∀ (compress : List Nat → Nat → List Nat)
      (taskState : Option TaskStateCtx) (coverFile : Option (List Nat)),
      resolveRetryReference compress taskState true coverFile =
        retryReferenceSpec compress
          (taskState.bind TaskStateCtx.cover_image) coverFile ∧
      resolveRetryAllReference compress taskState coverFile =
        retryReferenceSpec compress
          (taskState.bind TaskStateCtx.cover_image) coverFile := by
  intro compress ts coverFile
  rcases ts with _ | ts
  · exact ⟨rfl, rfl⟩
  · rcases h : ts.cover_image with _ | b
    · constructor
      · simp [resolveRetryReference, retryReferenceSpec, h]
      · simp [resolveRetryAllReference, retryReferenceSpec, h]
    · constructor
      · simp [resolveRetryReference, retryReferenceSpec, h]
      · simp [resolveRetryAllReference, retryReferenceSpec, h]

theorem firstStop_none (classify : String → LineClass)
    (h : ∀ line, classify line = .skip) (lines : List String) :
    firstStop classify lines = none := by
  induction lines with
  | nil => rfl
  | cons line rest ih => simp [firstStop, h line, ih]

theorem runChunks_timeout_aux (classify : String → LineClass)
    (h : ∀ line, classify line = .skip) (chunks : List String) :
    ∀ (buffer : String) (count : Nat), count ≤ MAX_CHUNKS →
      MAX_CHUNKS < count + chunks.length →
      runChunks classify chunks buffer count =
        .timeoutChunks chunkTimeoutMessage := by
  induction chunks with
  | nil =>
    intro buffer count hle hgt
    simp at hgt
    omega
  | cons chunk rest ih =>
    intro buffer count hle hgt
    unfold runChunks
    by_cases hc : MAX_CHUNKS < count + 1
    · rw [if_pos hc]
    · rw [if_neg hc]
      simp only [firstStop_none classify h]
      exact ih _ (count + 1) (by omega) (by simp at hgt ⊢; omega)

/-- C7: a streaming chat-completion call in either generator that receives
more than `MAX_CHUNKS` (200) data events none of which carries a terminal
`finish_reason="stop"` marker rejects with the chunk-limit timeout error
(instead of waiting forever); the chunk past the limit is not even
scanned. -/
theorem stream_chunk_limit_timeout :
    ∀ (classify : String → LineClass) (chunks : List String),
      MAX_CHUNKS < chunks.length →
      (∀ line, classify line = .skip) →
      runChunks classify chunks "" 0 =
        .timeoutChunks chunkTimeoutMessage := by
  intro classify chunks hlen hskip
  exact runChunks_timeout_aux classify hskip chunks "" 0 (by omega)
    (by omega)

/-- C7 (witness): 201 markerless chunks time out. -/
theorem stream_chunk_limit_timeout_witness :
    runChunks (fun _ => .skip) (List.replicate 201 "reasoning") "" 0 =
      .timeoutChunks chunkTimeoutMessage :=
  stream_chunk_limit_timeout (fun _ => .skip) (List.replicate 201 "reasoning")
    (by unfold MAX_CHUNKS; rw [List.length_replicate]; omega) (fun _ => rfl)
